import Mathlib

/-!
Verification of the PicSourcer source-resolution pipeline.

The development shallowly embeds the pure parts of the repository:
the URL extractor of src/image_search.py, the caption escaping and
composition of src/bot.py, the correlation state machine of
src/image_search.py and src/telegram_client.py, and the intake filter
and ledger of src/bot.py.  Strings are modelled as `List Char`,
timestamps as `Nat`, and the event loop as explicit event lists.
-/

namespace PicSourcer

/-! ## Basic string helpers (Python string semantics on ASCII text) -/

/-- The whitespace characters a plain strip() removes from ASCII text. -/
def pySpace : List Char := [' ', '\t', '\n', '\r', '\x0b', '\x0c']

def isPySpace (c : Char) : Bool := pySpace.contains c

/-- strip(): drop whitespace from both ends. -/
def pyStrip (s : List Char) : List Char :=
  ((s.dropWhile isPySpace).reverse.dropWhile isPySpace).reverse

/-- split('\n'): split on every newline, keeping empty pieces. -/
def splitOnNl : List Char → List (List Char)
  | [] => [[]]
  | c :: t =>
    let r := splitOnNl t
    if c = '\n' then [] :: r
    else
      match r with
      | h :: rest => (c :: h) :: rest
      | [] => [[c]]

/-- split() with no argument: split on whitespace runs, dropping empties.
`cur` accumulates the current word in reverse. -/
def wordsAux (cur : List Char) : List Char → List (List Char)
  | [] => if cur = [] then [] else [cur.reverse]
  | c :: t =>
    if isPySpace c then
      if cur = [] then wordsAux [] t else cur.reverse :: wordsAux [] t
    else wordsAux (c :: cur) t

def pySplitWs (s : List Char) : List (List Char) := wordsAux [] s

/-- The characters of strip(',.!?()[]{}') in image_search.py line 163. -/
def stripSetChars : List Char :=
  [',', '.', '!', '?', '(', ')', '[', ']', '\x7b', '\x7d']

def inStripSet (c : Char) : Bool := stripSetChars.contains c

/-- strip(',.!?()[]{}'): drop those characters from both ends. -/
def pyStripSet (s : List Char) : List Char :=
  ((s.dropWhile inStripSet).reverse.dropWhile inStripSet).reverse

/-- replace('\\', ''): delete every backslash. -/
def removeBackslashes (s : List Char) : List Char := s.filter (fun c => c ≠ '\\')

/-- str.lower() on ASCII text. -/
def lowerStr (s : List Char) : List Char := s.map Char.toLower

/-- Python `needle in hay` substring containment. -/
def containsSub (needle : List Char) : List Char → Bool
  | [] => needle.isPrefixOf []
  | c :: t => needle.isPrefixOf (c :: t) || containsSub needle t

/-- url.startswith(('http://', 'https://')). -/
def isHttpUrl (u : List Char) : Bool :=
  "http://".data.isPrefixOf u || "https://".data.isPrefixOf u

/-! ## SourceExtractor (src/image_search.py, `_extract_source_url`) -/

inductive Platform
  | e621 | furaffinity | twitter | bluesky
  deriving DecidableEq, Repr

/-- SOURCE_DOMAINS of src/config.py, in dict insertion order. -/
def SOURCE_DOMAINS : List (Platform × List (List Char)) :=
  [(.e621, ["e621.net".data]),
   (.furaffinity,
     ["furaffinity.net".data, "www.furaffinity.net".data,
      "beta.furaffinity.net".data]),
   (.twitter,
     ["twitter.com".data, "x.com".data, "twitter.com/i/web".data,
      "mobile.twitter.com".data]),
   (.bluesky, ["bsky.app".data, "bsky.social".data])]

/-- any(domain in url.lower() for domain in domains). -/
def domainsMatch (domains : List (List Char)) (url : List Char) : Bool :=
  domains.any (fun d => containsSub d (lowerStr url))

/-- The platform loop of lines 153-157 / 170-174: the first platform of
SOURCE_DOMAINS one of whose domains is a substring of the lowercased URL. -/
def matchPlatform (url : List Char) : Option Platform :=
  (SOURCE_DOMAINS.find? (fun pd => domainsMatch pd.2 url)).map (fun pd => pd.1)

/-- The found_urls dict: one slot per platform, '' (here []) when unset. -/
structure FoundUrls where
  e621 : List Char
  furaffinity : List Char
  twitter : List Char
  bluesky : List Char
  deriving DecidableEq, Repr

def FoundUrls.empty : FoundUrls := ⟨[], [], [], []⟩

def FoundUrls.get (fu : FoundUrls) : Platform → List Char
  | .e621 => fu.e621
  | .furaffinity => fu.furaffinity
  | .twitter => fu.twitter
  | .bluesky => fu.bluesky

def FoundUrls.set (fu : FoundUrls) : Platform → List Char → FoundUrls
  | .e621, u => { fu with e621 := u }
  | .furaffinity, u => { fu with furaffinity := u }
  | .twitter, u => { fu with twitter := u }
  | .bluesky, u => { fu with bluesky := u }

/-- One candidate URL: keep it when it has an http/https scheme and a known
domain is a substring; the first matching platform's slot is overwritten. -/
def tryStore (fu : FoundUrls) (url : List Char) : FoundUrls :=
  if isHttpUrl url then
    match matchPlatform url with
    | some p => fu.set p url
    | none => fu
  else fu

/-- Greedily take the characters before the first `stop`; none when `stop`
does not occur.  This is exactly what the regex classes [^\]]+ / [^)]+ can
match, up to the nonemptiness check done by the caller. -/
def grabUntilAny (stop : Char) : List Char → Option (List Char × List Char)
  | [] => none
  | c :: t =>
    if c = stop then some ([], t)
    else
      match grabUntilAny stop t with
      | some (g, r) => some (c :: g, r)
      | none => none

/-- Attempt of the markdown regex right after a '[': a nonempty group of
non-']' characters, a ']', a '(', a nonempty group of non-')' characters,
a ')'.  Returns (group1, group2). -/
def mdAttempt (t : List Char) : Option (List Char × List Char) :=
  match grabUntilAny ']' t with
  | some (g1, r1) =>
    if g1 = [] then none
    else
      match r1 with
      | '(' :: r2 =>
        match grabUntilAny ')' r2 with
        | some (g2, _) => if g2 = [] then none else some (g1, g2)
        | none => none
      | _ => none
  | none => none

/-- re.search of the pattern \[([^\]]+)\]\(([^)]+)\): the leftmost position
where the deterministic attempt succeeds. -/
def searchMarkdown : List Char → Option (List Char × List Char)
  | [] => none
  | c :: t =>
    if c = '[' then
      match mdAttempt t with
      | some res => some res
      | none => searchMarkdown t
    else searchMarkdown t

/-- The candidate URLs one line offers, in the order the code tests them:
first the stripped group 2 of the first markdown link (if any), then each
whitespace token cleaned by strip(',.!?()[]{}').replace('\\',''). -/
def candList (line : List Char) : List (List Char) :=
  (match searchMarkdown line with
   | some (_, g2) => [pyStrip g2]
   | none => []) ++
  (pySplitWs line).map (fun w => removeBackslashes (pyStripSet w))

/-- Processing one line of the reply updates the found_urls slots with every
candidate of the line, in order. -/
def processLine (fu : FoundUrls) (line : List Char) : FoundUrls :=
  (candList line).foldl tryStore fu

/-- lines = [line.strip() for line in message.split('\n') if line.strip()]. -/
def procLines (message : List Char) : List (List Char) :=
  ((splitOnNl message).map pyStrip).filter (fun l => l ≠ [])

/-- The final selection of lines 176-188: e621 first, then furaffinity,
twitter, bluesky; none when every slot is still empty. -/
def finalSelect (fu : FoundUrls) : Option (List Char) :=
  if fu.e621 ≠ [] then some fu.e621
  else if fu.furaffinity ≠ [] then some fu.furaffinity
  else if fu.twitter ≠ [] then some fu.twitter
  else if fu.bluesky ≠ [] then some fu.bluesky
  else none

/-- src/image_search.py `_extract_source_url`: scan every line, then select by
the fixed platform priority e621, furaffinity, twitter, bluesky. -/
def extract_source_url (message : List Char) : Option (List Char) :=
  finalSelect ((procLines message).foldl processLine FoundUrls.empty)

/-- Modelled from the spec: the host of a URL, the text between the scheme
marker and the first path, query or fragment delimiter.  The source never
computes a host in the extractor; this definition only serves to state the
host-membership reading of the extraction claim. -/
def dropScheme : List Char → List Char
  | [] => []
  | c :: t =>
    if "://".data.isPrefixOf (c :: t) then t.drop 2
    else dropScheme t

def specUrlHost (url : List Char) : List Char :=
  (dropScheme url).takeWhile (fun c => c != '/' && c != '?' && c != '#')

/-- Every domain of the table, across all platforms. -/
def allDomains : List (List Char) := (SOURCE_DOMAINS.map (fun pd => pd.2)).flatten

/-- A URL the code would attribute to platform `p`: http/https scheme and one
of that platform's domains (p being the first match in table order) occurring
as a substring of the lowercased URL. -/
def qualifiesB (p : Platform) (u : List Char) : Bool :=
  isHttpUrl u && (matchPlatform u == some p)

/-- All candidate URLs a message offers, every line in order. -/
def msgCandidates (message : List Char) : List (List Char) :=
  ((procLines message).map candList).flatten

/-- The message offers some candidate that the code attributes to `p`. -/
def hasCandB (p : Platform) (message : List Char) : Bool :=
  (msgCandidates message).any (fun u => qualifiesB p u)

/-- Position of a platform in the fixed priority order. -/
def platformRank : Platform → Nat
  | .e621 => 0
  | .furaffinity => 1
  | .twitter => 2
  | .bluesky => 3

def allPlatforms : List Platform := [.e621, .furaffinity, .twitter, .bluesky]

/-- No platform of strictly higher priority than `p` has a candidate. -/
def noHigherB (p : Platform) (message : List Char) : Bool :=
  (allPlatforms.filter
    (fun q => decide (platformRank q < platformRank p))).all
    (fun q => !hasCandB q message)

/-! ## Invariants of the found_urls fold -/

theorem isHttpUrl_ne_nil {u : List Char} (h : isHttpUrl u = true) : u ≠ [] := by
  intro he
  subst he
  exact absurd h (by decide)

theorem FoundUrls.get_set (fu : FoundUrls) (p q : Platform) (u : List Char) :
    (fu.set p u).get q = if q = p then u else fu.get q := by
  cases p <;> cases q <;> simp [FoundUrls.get, FoundUrls.set]

/-- Every nonempty slot holds a URL the code attributed to that platform, and
that URL is one of the candidates scanned so far. -/
def SoundIn (cands : List (List Char)) (fu : FoundUrls) : Prop :=
  ∀ p : Platform, fu.get p ≠ [] →
    qualifiesB p (fu.get p) = true ∧ fu.get p ∈ cands

theorem SoundIn_empty (cands : List (List Char)) : SoundIn cands FoundUrls.empty := by
  intro p hp
  cases p <;> simp [FoundUrls.get, FoundUrls.empty] at hp

theorem tryStore_of_notHttp {fu : FoundUrls} {u : List Char}
    (hh : isHttpUrl u = false) : tryStore fu u = fu := by
  simp [tryStore, hh]

theorem tryStore_of_noMatch {fu : FoundUrls} {u : List Char}
    (hmp : matchPlatform u = none) : tryStore fu u = fu := by
  simp [tryStore, hmp]

theorem tryStore_of_match {fu : FoundUrls} {u : List Char} {p : Platform}
    (hh : isHttpUrl u = true) (hmp : matchPlatform u = some p) :
    tryStore fu u = fu.set p u := by
  simp [tryStore, hh, hmp]

theorem qualifiesB_parts {p : Platform} {u : List Char}
    (h : qualifiesB p u = true) :
    isHttpUrl u = true ∧ matchPlatform u = some p := by
  simpa [qualifiesB] using h

theorem bool_eq_false_of_not {b : Bool} (h : ¬b = true) : b = false := by
  cases b
  · rfl
  · exact absurd rfl h

theorem tryStore_sound {cands : List (List Char)} {fu : FoundUrls} {u : List Char}
    (h : SoundIn cands fu) (hu : u ∈ cands) : SoundIn cands (tryStore fu u) := by
  intro p hp
  by_cases hh : isHttpUrl u = true
  · cases hmp : matchPlatform u with
    | none =>
      rw [tryStore_of_noMatch hmp] at hp ⊢
      exact h p hp
    | some q =>
      rw [tryStore_of_match hh hmp] at hp ⊢
      rw [FoundUrls.get_set] at hp ⊢
      by_cases hpq : p = q
      · rw [if_pos hpq] at hp ⊢
        refine ⟨?_, hu⟩
        simp [qualifiesB, hh, hmp, hpq]
      · rw [if_neg hpq] at hp ⊢
        exact h p hp
  · rw [tryStore_of_notHttp (bool_eq_false_of_not hh)] at hp ⊢
    exact h p hp

theorem foldl_tryStore_sound (l : List (List Char)) {cands : List (List Char)}
    (hl : ∀ x ∈ l, x ∈ cands) {fu : FoundUrls} (h : SoundIn cands fu) :
    SoundIn cands (l.foldl tryStore fu) := by
  induction l generalizing fu with
  | nil => exact h
  | cons u t ih =>
    exact ih (fun x hx => hl x (List.mem_cons_of_mem _ hx))
      (tryStore_sound h (hl u (List.mem_cons_self _ _)))

theorem tryStore_get_ne {fu : FoundUrls} {u : List Char} {p : Platform}
    (h : fu.get p ≠ []) : (tryStore fu u).get p ≠ [] := by
  by_cases hh : isHttpUrl u = true
  · cases hmp : matchPlatform u with
    | none => rw [tryStore_of_noMatch hmp]; exact h
    | some q =>
      rw [tryStore_of_match hh hmp, FoundUrls.get_set]
      by_cases hpq : p = q
      · rw [if_pos hpq]; exact isHttpUrl_ne_nil hh
      · rw [if_neg hpq]; exact h
  · rw [tryStore_of_notHttp (bool_eq_false_of_not hh)]; exact h

theorem tryStore_get_of_qual {fu : FoundUrls} {u : List Char} {p : Platform}
    (h : qualifiesB p u = true) : (tryStore fu u).get p = u := by
  obtain ⟨hh, hmp⟩ := qualifiesB_parts h
  rw [tryStore_of_match hh hmp, FoundUrls.get_set, if_pos rfl]

theorem foldl_tryStore_ne (l : List (List Char)) {fu : FoundUrls} {p : Platform}
    (h : fu.get p ≠ [] ∨ ∃ u ∈ l, qualifiesB p u = true) :
    (l.foldl tryStore fu).get p ≠ [] := by
  induction l generalizing fu with
  | nil =>
    rcases h with h | ⟨u, hu, _⟩
    · exact h
    · exact absurd hu (List.not_mem_nil u)
  | cons u t ih =>
    rcases h with h | ⟨v, hv, hq⟩
    · exact ih (Or.inl (tryStore_get_ne h))
    · rcases List.mem_cons.mp hv with rfl | hv2
      · refine ih (Or.inl ?_)
        rw [tryStore_get_of_qual hq]
        exact isHttpUrl_ne_nil (qualifiesB_parts hq).1
      · exact ih (Or.inr ⟨v, hv2, hq⟩)

theorem foldl_processLine_eq (ls : List (List Char)) (fu : FoundUrls) :
    ls.foldl processLine fu = ((ls.map candList).flatten).foldl tryStore fu := by
  induction ls generalizing fu with
  | nil => rfl
  | cons l t ih =>
    simp only [List.foldl_cons, List.map_cons, List.flatten_cons,
      List.foldl_append]
    exact ih (processLine fu l)

/-- The fold underlying `extract_source_url`, as a flat fold over candidates. -/
theorem extract_fold_eq (message : List Char) :
    (procLines message).foldl processLine FoundUrls.empty =
      (msgCandidates message).foldl tryStore FoundUrls.empty :=
  foldl_processLine_eq _ _

theorem finalSelect_sound {cands : List (List Char)} {fu : FoundUrls}
    {url : List Char} (hs : SoundIn cands fu) (h : finalSelect fu = some url) :
    ∃ p : Platform, qualifiesB p url = true ∧ url ∈ cands := by
  unfold finalSelect at h
  by_cases h1 : fu.e621 ≠ []
  · rw [if_pos h1] at h
    obtain rfl := Option.some.inj h
    exact ⟨.e621, hs .e621 h1⟩
  · rw [if_neg h1] at h
    by_cases h2 : fu.furaffinity ≠ []
    · rw [if_pos h2] at h
      obtain rfl := Option.some.inj h
      exact ⟨.furaffinity, hs .furaffinity h2⟩
    · rw [if_neg h2] at h
      by_cases h3 : fu.twitter ≠ []
      · rw [if_pos h3] at h
        obtain rfl := Option.some.inj h
        exact ⟨.twitter, hs .twitter h3⟩
      · rw [if_neg h3] at h
        by_cases h4 : fu.bluesky ≠ []
        · rw [if_pos h4] at h
          obtain rfl := Option.some.inj h
          exact ⟨.bluesky, hs .bluesky h4⟩
        · rw [if_neg h4] at h
          exact absurd h (by simp)

/-- Anything `extract_source_url` returns is one of the scanned candidates and
was attributed to some platform of the table. -/
theorem extract_sound {message url : List Char}
    (h : extract_source_url message = some url) :
    ∃ p : Platform, qualifiesB p url = true ∧ url ∈ msgCandidates message := by
  unfold extract_source_url at h
  rw [extract_fold_eq] at h
  exact finalSelect_sound
    (foldl_tryStore_sound _ (fun x hx => hx) (SoundIn_empty _)) h

theorem finalSelect_e621 {fu : FoundUrls} (h : fu.e621 ≠ []) :
    finalSelect fu = some fu.e621 := by
  simp [finalSelect, h]

theorem finalSelect_fa {fu : FoundUrls} (h0 : fu.e621 = [])
    (h : fu.furaffinity ≠ []) : finalSelect fu = some fu.furaffinity := by
  simp [finalSelect, h0, h]

theorem finalSelect_tw {fu : FoundUrls} (h0 : fu.e621 = [])
    (h1 : fu.furaffinity = []) (h : fu.twitter ≠ []) :
    finalSelect fu = some fu.twitter := by
  simp [finalSelect, h0, h1, h]

theorem finalSelect_bs {fu : FoundUrls} (h0 : fu.e621 = [])
    (h1 : fu.furaffinity = []) (h2 : fu.twitter = []) (h : fu.bluesky ≠ []) :
    finalSelect fu = some fu.bluesky := by
  simp [finalSelect, h0, h1, h2, h]

/-- A platform with no candidate in the message ends with an empty slot. -/
theorem final_get_empty {message : List Char} {q : Platform}
    (h : hasCandB q message = false) :
    ((msgCandidates message).foldl tryStore FoundUrls.empty).get q = [] := by
  by_contra hne
  have hs := foldl_tryStore_sound (msgCandidates message) (fun x hx => hx)
    (SoundIn_empty (msgCandidates message)) q hne
  have ht : hasCandB q message = true := by
    unfold hasCandB
    rw [List.any_eq_true]
    exact ⟨_, hs.2, hs.1⟩
  rw [ht] at h
  exact Bool.noConfusion h

/-- A platform with some candidate in the message ends with a nonempty slot. -/
theorem final_get_ne {message : List Char} {p : Platform}
    (h : hasCandB p message = true) :
    ((msgCandidates message).foldl tryStore FoundUrls.empty).get p ≠ [] := by
  unfold hasCandB at h
  rw [List.any_eq_true] at h
  obtain ⟨u, hu, hq⟩ := h
  exact foldl_tryStore_ne _ (Or.inr ⟨u, hu, hq⟩)

/-- C2: with a candidate for platform `p` and none for any platform of higher
priority, the extractor returns a URL attributed to `p`, and that URL is one
of the message's candidates. -/
theorem C2_priority_selection (message : List Char) (p : Platform)
    (hc : hasCandB p message = true) (hh : noHigherB p message = true) :
    ∃ url, extract_source_url message = some url ∧ qualifiesB p url = true ∧
      url ∈ msgCandidates message := by
  have hsound := foldl_tryStore_sound (msgCandidates message)
    (fun x hx => hx) (SoundIn_empty (msgCandidates message))
  have hne := final_get_ne hc
  unfold extract_source_url
  rw [extract_fold_eq]
  set fu := (msgCandidates message).foldl tryStore FoundUrls.empty with hfu
  cases p with
  | e621 =>
    have h1 : fu.e621 ≠ [] := hne
    exact ⟨fu.e621, finalSelect_e621 h1, (hsound .e621 h1).1, (hsound .e621 h1).2⟩
  | furaffinity =>
    have he : hasCandB .e621 message = false := by
      simpa [noHigherB, allPlatforms, platformRank] using hh
    have h0 : fu.e621 = [] := final_get_empty he
    have h1 : fu.furaffinity ≠ [] := hne
    exact ⟨fu.furaffinity, finalSelect_fa h0 h1,
      (hsound .furaffinity h1).1, (hsound .furaffinity h1).2⟩
  | twitter =>
    have hef : hasCandB .e621 message = false ∧
        hasCandB .furaffinity message = false := by
      simpa [noHigherB, allPlatforms, platformRank] using hh
    have h0 : fu.e621 = [] := final_get_empty hef.1
    have h1 : fu.furaffinity = [] := final_get_empty hef.2
    have h2 : fu.twitter ≠ [] := hne
    exact ⟨fu.twitter, finalSelect_tw h0 h1 h2,
      (hsound .twitter h2).1, (hsound .twitter h2).2⟩
  | bluesky =>
    have hef : hasCandB .e621 message = false ∧
        hasCandB .furaffinity message = false ∧
        hasCandB .twitter message = false := by
      simpa [noHigherB, allPlatforms, platformRank] using hh
    have h0 : fu.e621 = [] := final_get_empty hef.1
    have h1 : fu.furaffinity = [] := final_get_empty hef.2.1
    have h2 : fu.twitter = [] := final_get_empty hef.2.2
    have h3 : fu.bluesky ≠ [] := hne
    exact ⟨fu.bluesky, finalSelect_bs h0 h1 h2 h3,
      (hsound .bluesky h3).1, (hsound .bluesky h3).2⟩

/-- Witness for C2 at a concrete reply holding a FurAffinity URL and a
Twitter URL: the FurAffinity candidate is selected. -/
theorem C2_priority_selection_witness :
    ∃ url,
      extract_source_url
        "https://furaffinity.net/view/1 https://twitter.com/a/status/2".data =
        some url ∧
      qualifiesB .furaffinity url = true ∧
      url ∈ msgCandidates
        "https://furaffinity.net/view/1 https://twitter.com/a/status/2".data :=
  C2_priority_selection
    "https://furaffinity.net/view/1 https://twitter.com/a/status/2".data
    .furaffinity (by decide) (by decide)

/-- C1 (amended): everything the extractor returns has an http/https scheme
and contains one of the known platform domains as a substring of its
lowercased text.  (The code tests substring containment of the whole URL,
not membership of the URL's host in the domain table.) -/
theorem C1_extract_scheme_and_domain (message url : List Char)
    (h : extract_source_url message = some url) :
    isHttpUrl url = true ∧ ∃ p : Platform, matchPlatform url = some p := by
  obtain ⟨p, hq, _⟩ := extract_sound h
  obtain ⟨hh, hmp⟩ := qualifiesB_parts hq
  exact ⟨hh, p, hmp⟩

/-- Witness for C1 at a concrete reply. -/
theorem C1_extract_scheme_and_domain_witness :
    isHttpUrl "https://e621.net/posts/123".data = true ∧
      ∃ p : Platform, matchPlatform "https://e621.net/posts/123".data = some p :=
  C1_extract_scheme_and_domain "check https://e621.net/posts/123 nice".data
    "https://e621.net/posts/123".data (by decide)

/-- C1 counterexample: the extractor returns a URL whose host is
example.com, which is in no platform's domain set — the domain test is a
substring test on the whole URL, not a host test. -/
theorem C1_host_counterexample :
    extract_source_url "https://example.com/e621.net".data =
      some "https://example.com/e621.net".data ∧
    specUrlHost "https://example.com/e621.net".data = "example.com".data ∧
    "example.com".data ∉ allDomains := by
  refine ⟨by decide, by decide, by decide⟩

/-! ## CaptionRewriter (src/bot.py, escape_markdown_v2_preserve_links and the
caption composition of handle_channel_post) -/

/-- Decimal digits of a natural number, as str() prints them. -/
def natToChars (n : Nat) : List Char := Nat.toDigits 10 n

def placeholderPrefix : List Char := "LINK_PLACEHOLDER_".data

/-- The placeholder f"LINK_PLACEHOLDER_\x7bi\x7d_" of line 463. -/
def placeholder (i : Nat) : List Char :=
  placeholderPrefix ++ natToChars i ++ ['_']

/-- For a lazy group (.*?) whose continuation is a single literal: take the
characters before the first `stop`; fail at a newline ('.' does not cross
lines) or at the end of the text. -/
def grabLazy (stop : Char) : List Char → Option (List Char × List Char)
  | [] => none
  | c :: t =>
    if c = stop then some ([], t)
    else if c = '\n' then none
    else (grabLazy stop t).map (fun gr => (c :: gr.1, gr.2))

/-- The regex \[(.*?)\]\((.*?)\) right after its opening '[': lazily extend
group 1 over non-newline characters until a ']' immediately followed by '('
and a closing ')' is found.  Returns (group1, group2, rest-after-match). -/
def matchLinkAux : List Char → Option (List Char × List Char × List Char)
  | [] => none
  | c :: t =>
    if c = ']' then
      match t with
      | '(' :: r2 =>
        match grabLazy ')' r2 with
        | some (g2, r) => some ([], g2, r)
        | none => (matchLinkAux t).map (fun x => (c :: x.1, x.2.1, x.2.2))
      | _ => (matchLinkAux t).map (fun x => (c :: x.1, x.2.1, x.2.2))
    else if c = '\n' then none
    else (matchLinkAux t).map (fun x => (c :: x.1, x.2.1, x.2.2))

/-- re.sub(r'\[(.*?)\]\((.*?)\)', replace_link, text): scan left to right;
at each '[' whose attempt succeeds, emit the next placeholder, record the
matched link, and resume after the match.  `fuel` bounds the recursion and
exceeds the scanned length at every call from `subLinks`. -/
def subLinksFuel (fuel : Nat) : List Char → Nat → List Char × List (List Char) :=
  match fuel with
  | 0 => fun cs _ => (cs, [])
  | fuel + 1 => fun cs i =>
    match cs with
    | [] => ([], [])
    | c :: t =>
      if c = '[' then
        match matchLinkAux t with
        | some (g1, g2, r) =>
          let rest := subLinksFuel fuel r (i + 1)
          (placeholder i ++ rest.1,
           ('[' :: g1 ++ ']' :: '(' :: g2 ++ [')']) :: rest.2)
        | none =>
          let rest := subLinksFuel fuel t i
          (c :: rest.1, rest.2)
      else
        let rest := subLinksFuel fuel t i
        (c :: rest.1, rest.2)

def subLinks (cs : List Char) : List Char × List (List Char) :=
  subLinksFuel cs.length cs 0

/-- The 18 MarkdownV2 special characters of lines 468 and 653, in order. -/
def special_chars : List Char :=
  ['_', '*', '[', ']', '(', ')', '~', '\x60', '>', '#', '+', '-', '=', '|',
   '\x7b', '\x7d', '.', '!']

/-- text.replace(c, '\\' + c) for a single character c. -/
def replaceChar (c : Char) (s : List Char) : List Char :=
  s.flatMap (fun x => if x = c then ['\\', c] else [x])

/-- The escaping loop: replace each special character, in order. -/
def escapeChars (s : List Char) : List Char :=
  special_chars.foldl (fun acc c => replaceChar c acc) s

/-- escape_markdown_v2 of src/bot.py (lines 651-657). -/
def escape_markdown_v2 (s : List Char) : List Char := escapeChars s

/-- Python str.replace(needle, repl): scan left to right and replace each
non-overlapping occurrence.  `fuel` bounds the recursion and is the scanned
length at the call from `replaceAll`; a run out of fuel leaves the rest
unchanged, which never alters the result since every step consumes at least
one character. -/
def replaceAllFuel (needle repl : List Char) : Nat → List Char → List Char
  | 0, cs => cs
  | _ + 1, [] => []
  | fuel + 1, c :: t =>
    if needle.isPrefixOf (c :: t) && !needle.isEmpty then
      repl ++ replaceAllFuel needle repl fuel ((c :: t).drop needle.length)
    else c :: replaceAllFuel needle repl fuel t

def replaceAll (needle repl s : List Char) : List Char :=
  replaceAllFuel needle repl s.length s

/-- The restore loop of lines 474-475: replace each placeholder, in order,
by the recorded link text. -/
def restoreLinks : List Char → List (List Char) → Nat → List Char
  | esc, [], _ => esc
  | esc, l :: ls, i => restoreLinks (replaceAll (placeholder i) l esc) ls (i + 1)

/-- escape_markdown_v2_preserve_links of src/bot.py (lines 451-477):
substitute markdown links by placeholders, escape every special character,
then replace each placeholder back by its link. -/
def escape_markdown_v2_preserve_links (s : List Char) : List Char :=
  restoreLinks (escapeChars (subLinks s).1) (subLinks s).2 0

/-- BLUESKY_GENERIC_ATTRIBUTION marker of image_search.py. -/
def BLUESKY_MARKER : List Char := "BLUESKY_GENERIC_ATTRIBUTION".data

/-- The link label of handle_channel_post (lines 393-402). -/
def link_text (author_nickname : List Char) : List Char :=
  if author_nickname = BLUESKY_MARKER then "*Автор на Bluesky 💎*".data
  else if author_nickname ≠ [] then
    "*by ".data ++ escape_markdown_v2 author_nickname ++ "*".data
  else "*by artist*".data

/-- The markdown link block f"[\x7blink_text\x7d](\x7burl\x7d)". -/
def linkBlock (lt url : List Char) : List Char :=
  '[' :: (lt ++ ']' :: '(' :: (url ++ [')']))

/-- The caption composition of lines 411-415: escaped caption, blank line,
link block; just the link block when the escaped caption is empty. -/
def build_caption (escaped_caption lt url : List Char) : List Char :=
  if escaped_caption ≠ [] then
    escaped_caption ++ '\n' :: '\n' :: linkBlock lt url
  else linkBlock lt url

/-- One full rewrite with a source present: escape the original caption
preserving links, then append the attribution link block. -/
def rewriteCompose (original_caption lt url : List Char) : List Char :=
  build_caption (escape_markdown_v2_preserve_links original_caption) lt url

/-- Number of positions of `hay` at which `needle` occurs. -/
def countOcc (needle : List Char) : List Char → Nat
  | [] => if needle.isPrefixOf [] then 1 else 0
  | c :: t => (if needle.isPrefixOf (c :: t) then 1 else 0) + countOcc needle t

/-- Does the text hold the character `a` immediately followed by `b`? -/
def hasPair (a b : Char) : List Char → Bool
  | x :: y :: t => (x == a && y == b) || hasPair a b (y :: t)
  | _ => false

/-! ## The escaping loop as a single character map -/

/-- Escape a character relative to the set `Q` of already-processed special
characters. -/
def escCharIn (Q : List Char) (x : Char) : List Char :=
  if x ∈ Q then ['\\', x] else [x]

theorem replaceChar_flatMap (d : Char) (f : Char → List Char) (s : List Char) :
    replaceChar d (s.flatMap f) = s.flatMap (fun x => replaceChar d (f x)) := by
  induction s with
  | nil => rfl
  | cons x xs ih =>
    simp only [List.flatMap_cons, replaceChar, List.flatMap_append] at *
    rw [ih]

theorem replaceChar_escCharIn {d : Char} {Q : List Char} (hdQ : d ∉ Q)
    (hdb : d ≠ '\\') (x : Char) :
    replaceChar d (escCharIn Q x) = escCharIn (Q ++ [d]) x := by
  unfold escCharIn replaceChar
  by_cases hxQ : x ∈ Q
  · have hxd : x ≠ d := fun h => hdQ (h ▸ hxQ)
    have hbd : ('\\' : Char) ≠ d := fun h => hdb h.symm
    rw [if_pos hxQ, if_pos (List.mem_append_left _ hxQ)]
    simp [List.flatMap_cons, hbd, hxd]
  · rw [if_neg hxQ]
    by_cases hxd : x = d
    · subst hxd
      rw [if_pos (List.mem_append_right _ (List.mem_singleton_self x))]
      simp [List.flatMap_cons]
    · have : x ∉ Q ++ [d] := by
        intro hm
        rcases List.mem_append.mp hm with hm | hm
        · exact hxQ hm
        · exact hxd (List.mem_singleton.mp hm)
      rw [if_neg this]
      simp [List.flatMap_cons, hxd]

theorem foldl_replaceChar (P : List Char) :
    ∀ (Q : List Char), P.Nodup → (∀ d ∈ P, d ∉ Q) → '\\' ∉ P →
      ∀ s : List Char,
        P.foldl (fun acc c => replaceChar c acc) (s.flatMap (escCharIn Q)) =
          s.flatMap (escCharIn (Q ++ P)) := by
  induction P with
  | nil => intro Q _ _ _ s; simp
  | cons d P ih =>
    intro Q hnd hPQ hbs s
    simp only [List.foldl_cons]
    have hstep : replaceChar d (s.flatMap (escCharIn Q)) =
        s.flatMap (escCharIn (Q ++ [d])) := by
      rw [replaceChar_flatMap]
      refine List.flatMap_congr ?_
      intro x _
      exact replaceChar_escCharIn (hPQ d (List.mem_cons_self _ _))
        (fun h => hbs (h ▸ List.mem_cons_self _ _)) x
    rw [hstep]
    have hres := ih (Q ++ [d]) (List.Nodup.of_cons hnd)
      (fun e he hm => by
        rcases List.mem_append.mp hm with hm | hm
        · exact hPQ e (List.mem_cons_of_mem _ he) hm
        · exact (List.nodup_cons.mp hnd).1 (List.mem_singleton.mp hm ▸ he))
      (fun h => hbs (List.mem_cons_of_mem _ h)) s
    rw [hres, List.append_assoc]
    rfl

theorem flatMap_escCharIn_nil (s : List Char) :
    s.flatMap (escCharIn []) = s := by
  induction s with
  | nil => rfl
  | cons x xs ih => simp [List.flatMap_cons, escCharIn, ih]

/-- The 18 sequential replaces act as one simultaneous character map. -/
theorem escapeChars_eq (s : List Char) :
    escapeChars s = s.flatMap (escCharIn special_chars) := by
  have h := foldl_replaceChar special_chars [] (by decide)
    (fun d _ h => (List.not_mem_nil d) h) (by decide) s
  rw [flatMap_escCharIn_nil] at h
  simpa [escapeChars] using h

/-! ## No special character is left unescaped, so no pair (a, special) with
a ≠ backslash survives escaping -/

theorem escCharIn_pos {x : Char} (hx : x ∈ special_chars) :
    escCharIn special_chars x = ['\\', x] := if_pos hx

theorem escCharIn_neg {x : Char} (hx : x ∉ special_chars) :
    escCharIn special_chars x = [x] := if_neg hx

theorem hasPair_nil (a b : Char) : hasPair a b [] = false := rfl

theorem hasPair_single (a b c : Char) : hasPair a b [c] = false := rfl

theorem hasPair_cons2 (a b x y : Char) (t : List Char) :
    hasPair a b (x :: y :: t) = ((x == a && y == b) || hasPair a b (y :: t)) :=
  rfl

theorem beqFalse {α : Type} [BEq α] [LawfulBEq α] {x y : α} (h : x ≠ y) :
    (x == y) = false := by
  cases hb : x == y
  · rfl
  · exact absurd (eq_of_beq hb) h

theorem flatMap_head_cases {s : List Char} {z : Char} {t : List Char}
    (h : s.flatMap (escCharIn special_chars) = z :: t) :
    z = '\\' ∨ z ∉ special_chars := by
  induction s with
  | nil => exact absurd h (by simp)
  | cons x xs ih =>
    rw [List.flatMap_cons] at h
    by_cases hx : x ∈ special_chars
    · rw [escCharIn_pos hx, List.cons_append, List.cons.injEq] at h
      exact Or.inl h.1.symm
    · rw [escCharIn_neg hx, List.singleton_append, List.cons.injEq] at h
      exact Or.inr (h.1 ▸ hx)

theorem head_ne_of_special {s : List Char} {z : Char} {t : List Char} {b : Char}
    (h : s.flatMap (escCharIn special_chars) = z :: t)
    (hb : b ∈ special_chars) : z ≠ b := by
  rcases flatMap_head_cases h with hz | hz
  · intro he
    rw [he] at hz
    rw [hz] at hb
    exact absurd hb (by decide)
  · intro he
    exact hz (he ▸ hb)

theorem hasPair_flatMap {a b : Char} (hb : b ∈ special_chars) (ha : a ≠ '\\') :
    ∀ s : List Char, hasPair a b (s.flatMap (escCharIn special_chars)) = false := by
  have hab : ('\\' == a) = false := beqFalse (fun h => ha h.symm)
  intro s
  induction s with
  | nil => rfl
  | cons x xs ih =>
    rw [List.flatMap_cons]
    by_cases hx : x ∈ special_chars
    · rw [escCharIn_pos hx, List.cons_append, List.singleton_append,
        hasPair_cons2, hab, Bool.false_and, Bool.false_or]
      cases hF : xs.flatMap (escCharIn special_chars) with
      | nil => exact hasPair_single a b x
      | cons z t =>
        have hzb : (z == b) = false := beqFalse (head_ne_of_special hF hb)
        rw [hasPair_cons2, hzb, Bool.and_false, Bool.false_or]
        exact hF ▸ ih
    · rw [escCharIn_neg hx, List.singleton_append]
      cases hF : xs.flatMap (escCharIn special_chars) with
      | nil => exact hasPair_single a b x
      | cons z t =>
        have hzb : (z == b) = false := beqFalse (head_ne_of_special hF hb)
        rw [hasPair_cons2, hzb, Bool.and_false, Bool.false_or]
        exact hF ▸ ih

theorem hasPair_escapeChars {a b : Char} (hb : b ∈ special_chars)
    (ha : a ≠ '\\') (s : List Char) : hasPair a b (escapeChars s) = false := by
  rw [escapeChars_eq]
  exact hasPair_flatMap hb ha s

/-! ## Restoring placeholders is a no-op: escaping mangles every placeholder -/

theorem hasPair_tail {a b c : Char} {t : List Char}
    (h : hasPair a b (c :: t) = false) : hasPair a b t = false := by
  cases t with
  | nil => rfl
  | cons z t2 =>
    rw [hasPair_cons2, Bool.or_eq_false_iff] at h
    exact h.2

/-- Where a pair (a, b) is absent, no list starting a :: b :: _ is a prefix
of any suffix. -/
theorem no_ab_prefix {a b : Char} {l : List Char} (h : hasPair a b l = false) :
    ∀ (n : Nat) (tl : List Char), ¬ (a :: b :: tl) <+: l.drop n := by
  induction l with
  | nil =>
    intro n tl hp
    obtain ⟨s, hs⟩ := hp
    rw [List.drop_nil] at hs
    exact absurd hs (by simp)
  | cons c t ih =>
    intro n tl hp
    cases n with
    | zero =>
      obtain ⟨s, hs⟩ := hp
      rw [List.drop_zero] at hs
      rw [List.cons_append, List.cons.injEq] at hs
      obtain ⟨rfl, hs2⟩ := hs
      rw [List.cons_append] at hs2
      rw [← hs2, hasPair_cons2] at h
      simp at h
    | succ n =>
      exact ih (hasPair_tail h) n tl hp

theorem replaceAllFuel_id {needle repl : List Char} :
    ∀ (fuel : Nat) (cs : List Char),
      (∀ n : Nat, ¬ needle <+: cs.drop n) →
      replaceAllFuel needle repl fuel cs = cs := by
  intro fuel
  induction fuel with
  | zero => intro cs _; rfl
  | succ fuel ih =>
    intro cs h
    cases cs with
    | nil => rfl
    | cons c t =>
      have h0 : ¬ needle.isPrefixOf (c :: t) = true := by
        intro hp
        exact h 0 (List.isPrefixOf_iff_prefix.mp hp)
      have hpf : needle.isPrefixOf (c :: t) = false := bool_eq_false_of_not h0
      show (if needle.isPrefixOf (c :: t) && !needle.isEmpty then
          repl ++ replaceAllFuel needle repl fuel ((c :: t).drop needle.length)
        else c :: replaceAllFuel needle repl fuel t) = c :: t
      rw [hpf, Bool.false_and, if_neg Bool.false_ne_true]
      exact congrArg (List.cons c) (ih t (fun n => h (n + 1)))

theorem replaceAll_id {needle repl s : List Char}
    (h : ∀ n : Nat, ¬ needle <+: s.drop n) : replaceAll needle repl s = s :=
  replaceAllFuel_id s.length s h

/-- Every placeholder starts LINK_..., so its occurrence would put a 'K'
right before a '_'. -/
theorem placeholder_no_occ {l : List Char} (h : hasPair 'K' '_' l = false)
    (i : Nat) : ∀ n : Nat, ¬ (placeholder i) <+: l.drop n := by
  intro n hp
  obtain ⟨s, hs⟩ := hp
  have hshape : placeholder i =
      'L' :: 'I' :: 'N' :: 'K' :: '_' ::
        ("PLACEHOLDER_".data ++ natToChars i ++ ['_']) := rfl
  rw [hshape] at hs
  have hd : l.drop (n + 3) = 'K' :: '_' ::
      (("PLACEHOLDER_".data ++ natToChars i ++ ['_']) ++ s) := by
    rw [← List.drop_drop 3 n l, ← hs]
    rfl
  exact no_ab_prefix h (n + 3) _ ⟨[], by rw [List.append_nil, hd]⟩

/-- After escaping, every restore pass finds no placeholder, so the restore
loop returns its input unchanged. -/
theorem restoreLinks_noop {esc : List Char} (h : hasPair 'K' '_' esc = false) :
    ∀ (ls : List (List Char)) (i : Nat), restoreLinks esc ls i = esc := by
  intro ls
  induction ls with
  | nil => intro i; rfl
  | cons l ls ih =>
    intro i
    show restoreLinks (replaceAll (placeholder i) l esc) ls (i + 1) = esc
    rw [replaceAll_id (placeholder_no_occ h i)]
    exact ih (i + 1)

/-- escape_markdown_v2_preserve_links never restores a link: the escaping of
'_' mangles every placeholder before restoration looks for it. -/
theorem epl_eq (s : List Char) :
    escape_markdown_v2_preserve_links s = escapeChars (subLinks s).1 := by
  unfold escape_markdown_v2_preserve_links
  exact restoreLinks_noop
    (hasPair_escapeChars (by decide) (by decide) _) _ _

/-! ## Occurrence counting for the idempotence claim -/

theorem countOcc_nil {needle : List Char} (h : needle ≠ []) :
    countOcc needle [] = 0 := by
  cases needle with
  | nil => exact absurd rfl h
  | cons a t => rfl

theorem countOcc_cons (needle : List Char) (c : Char) (t : List Char) :
    countOcc needle (c :: t) =
      (if needle.isPrefixOf (c :: t) then 1 else 0) + countOcc needle t := rfl

theorem countOcc_short {needle : List Char} (hne : needle ≠ []) :
    ∀ hay : List Char, hay.length < needle.length → countOcc needle hay = 0 := by
  intro hay
  induction hay with
  | nil => intro _; exact countOcc_nil hne
  | cons c t ih =>
    intro hlen
    rw [countOcc_cons]
    have hp : ¬ needle.isPrefixOf (c :: t) = true := by
      intro hp
      have := (List.isPrefixOf_iff_prefix.mp hp).length_le
      omega
    rw [if_neg hp, ih (by simp at hlen ⊢; omega)]

theorem countOcc_self {B : List Char} (h : B ≠ []) : countOcc B B = 1 := by
  cases hB : B with
  | nil => exact absurd hB h
  | cons c t =>
    rw [countOcc_cons]
    have hp : (c :: t).isPrefixOf (c :: t) = true :=
      List.isPrefixOf_iff_prefix.mpr (List.prefix_refl _)
    rw [if_pos hp]
    rw [countOcc_short (by simp) t (by simp)]

/-- The escaped text never opens a link block: the prefix check against a
block beginning with "[*" fails at every position of the escaped prefix. -/
theorem not_prefix_mid {c : Char} {E2 R B2 : List Char}
    (hE : hasPair '[' '*' (c :: E2) = false) :
    ¬ ('[' :: '*' :: R).isPrefixOf (c :: (E2 ++ '\n' :: '\n' :: B2)) = true := by
  intro hp
  have hpre := List.isPrefixOf_iff_prefix.mp hp
  obtain ⟨s, hs⟩ := hpre
  rw [List.cons_append, List.cons.injEq] at hs
  obtain ⟨hc, hs2⟩ := hs
  cases E2 with
  | nil =>
    rw [List.nil_append, List.cons_append, List.cons.injEq] at hs2
    exact absurd hs2.1 (by decide)
  | cons d E3 =>
    rw [List.cons_append, List.cons_append, List.cons.injEq] at hs2
    obtain ⟨hd, -⟩ := hs2
    rw [← hc, ← hd, hasPair_cons2] at hE
    simp at hE

/-- Appending "\n\n" and a link block starting "[*" to an escaped text yields
exactly one occurrence of that block. -/
theorem countOcc_compose {E R : List Char} (hE : hasPair '[' '*' E = false) :
    countOcc ('[' :: '*' :: R) (E ++ '\n' :: '\n' :: '[' :: '*' :: R) = 1 := by
  induction E with
  | nil =>
    rw [List.nil_append, countOcc_cons, if_neg (by simp [List.isPrefixOf]),
      countOcc_cons, if_neg (by simp [List.isPrefixOf])]
    simp only [Nat.zero_add]
    apply countOcc_self
    simp
  | cons c E2 ih =>
    rw [List.cons_append, countOcc_cons, if_neg (not_prefix_mid hE),
      Nat.zero_add]
    exact ih (hasPair_tail hE)

/-- Every label the code builds starts with an asterisk. -/
theorem link_text_head (nick : List Char) : ∃ r, link_text nick = '*' :: r := by
  unfold link_text
  by_cases h1 : nick = BLUESKY_MARKER
  · rw [if_pos h1]; exact ⟨_, rfl⟩
  · rw [if_neg h1]
    by_cases h2 : nick ≠ []
    · rw [if_pos h2]; exact ⟨_, rfl⟩
    · rw [if_neg h2]; exact ⟨_, rfl⟩

/-- C4: composing the rewrite a second time over its own output with the same
source leaves exactly one occurrence of the link block in the result. -/
theorem C4_rewrite_no_duplicate_link (caption url nick : List Char) :
    countOcc (linkBlock (link_text nick) url)
      (rewriteCompose
        (rewriteCompose caption (link_text nick) url) (link_text nick) url) = 1 := by
  obtain ⟨r, hr⟩ := link_text_head nick
  have hB : linkBlock (link_text nick) url =
      '[' :: '*' :: (r ++ ']' :: '(' :: (url ++ [')'])) := by
    rw [linkBlock, hr, List.cons_append]
  show countOcc (linkBlock (link_text nick) url)
      (build_caption
        (escape_markdown_v2_preserve_links
          (rewriteCompose caption (link_text nick) url))
        (link_text nick) url) = 1
  set E2 := escape_markdown_v2_preserve_links
    (rewriteCompose caption (link_text nick) url) with hE2def
  have hE2 : hasPair '[' '*' E2 = false := by
    rw [hE2def, epl_eq]
    exact hasPair_escapeChars (by decide) (by decide) _
  by_cases hne : E2 ≠ []
  · rw [build_caption, if_pos hne, hB]
    exact countOcc_compose hE2
  · rw [build_caption, if_neg hne]
    apply countOcc_self
    rw [linkBlock]
    simp

/-- C3 (code bug): escape_markdown_v2_preserve_links does not preserve links.
On the caption "[a](b)" the placeholder is itself escaped before restoration
looks for it, so the output is the mangled placeholder and the link text is
gone. -/
theorem C3_preserve_links_bug :
    escape_markdown_v2_preserve_links "[a](b)".data =
      "LINK\\_PLACEHOLDER\\_0\\_".data ∧
    containsSub "[a](b)".data
      (escape_markdown_v2_preserve_links "[a](b)".data) = false := by
  exact ⟨by decide, by decide⟩

/-! ## SearchCoordinator correlation state machine (src/image_search.py)

The four correlation fields of ImageSearcher.  The fifth field of the class,
last_search_time, only feeds the rate limiter and is not touched by
_reset_state, so the environment abstracts it.  Times are naturals; Python
truthiness of a float timestamp (0.0 is falsy) is kept explicit. -/

structure SearcherState where
  last_response : Option (List Char)
  last_response_time : Option Nat
  waiting_for_response : Bool
  current_search_id : Option Nat
  deriving DecidableEq, Repr

/-- _reset_state (lines 105-110): all four fields back to idle. -/
def resetState (_ : SearcherState) : SearcherState :=
  { last_response := none, last_response_time := none,
    waiting_for_response := false, current_search_id := none }

def idleState : SearcherState :=
  { last_response := none, last_response_time := none,
    waiting_for_response := false, current_search_id := none }

/-- ImageSearcher.handle_bot_response (lines 112-125): drop empty or
oversized messages; drop messages when no request is waiting or no search id
is set (id() of live data is never falsy); otherwise buffer the reply with
its arrival time and clear the waiting flag. -/
def handlerStep (s : SearcherState) (msg : List Char) (t : Nat) : SearcherState :=
  if msg = [] ∨ msg.length > 4096 then s
  else if ¬ s.waiting_for_response ∨ s.current_search_id = none then s
  else { s with last_response := some msg, last_response_time := some t,
                waiting_for_response := false }

/-- A burst of handler invocations, in arrival order. -/
def runHandlers (s : SearcherState) (evs : List (List Char × Nat)) :
    SearcherState :=
  evs.foldl (fun st ev => handlerStep st ev.1 ev.2) s

/-- The freshness test of line 78 with Python truthiness: a buffered reply is
fresh when the text is nonempty, the arrival time nonzero, and the arrival
time is at least the submission time T. -/
def pollAccepts (s : SearcherState) (T : Nat) : Option (List Char × Nat) :=
  match s.last_response, s.last_response_time with
  | some r, some rt =>
    if r ≠ [] ∧ rt ≠ 0 ∧ rt ≥ T then some (r, rt) else none
  | _, _ => none

/-- The searcher state right after search_image reset the four fields,
installed the fresh search id (line 57) and set the waiting flag (line 68). -/
def postSend (sid : Nat) : SearcherState :=
  { last_response := none, last_response_time := none,
    waiting_for_response := true, current_search_id := some sid }

theorem handlerStep_invalid {msg : List Char} {t : Nat} (s : SearcherState)
    (h : msg = [] ∨ msg.length > 4096) : handlerStep s msg t = s := by
  unfold handlerStep
  rw [if_pos h]

theorem handlerStep_ignored {msg : List Char} {t : Nat} (s : SearcherState)
    (h : ¬ s.waiting_for_response ∨ s.current_search_id = none) :
    handlerStep s msg t = s := by
  unfold handlerStep
  by_cases h1 : msg = [] ∨ msg.length > 4096
  · rw [if_pos h1]
  · rw [if_neg h1, if_pos h]

theorem handlerStep_buffer {msg : List Char} {t : Nat} (s : SearcherState)
    (h1 : ¬ (msg = [] ∨ msg.length > 4096))
    (h2 : ¬ (¬ s.waiting_for_response ∨ s.current_search_id = none)) :
    handlerStep s msg t =
      { s with last_response := some msg, last_response_time := some t,
               waiting_for_response := false } := by
  unfold handlerStep
  rw [if_neg h1, if_neg h2]

theorem handlerStep_sid (s : SearcherState) (msg : List Char) (t : Nat) :
    (handlerStep s msg t).current_search_id = s.current_search_id := by
  unfold handlerStep
  by_cases h1 : msg = [] ∨ msg.length > 4096
  · rw [if_pos h1]
  · rw [if_neg h1]
    by_cases h2 : ¬ s.waiting_for_response ∨ s.current_search_id = none
    · rw [if_pos h2]
    · rw [if_neg h2]

theorem runHandlers_sid (evs : List (List Char × Nat)) :
    ∀ s : SearcherState,
      (runHandlers s evs).current_search_id = s.current_search_id := by
  induction evs with
  | nil => intro s; rfl
  | cons e evs ih =>
    intro s
    show (runHandlers (handlerStep s e.1 e.2) evs).current_search_id =
      s.current_search_id
    rw [ih (handlerStep s e.1 e.2), handlerStep_sid]

theorem pollAccepts_spec {s : SearcherState} {T : Nat} {r : List Char}
    {rt : Nat} (h : pollAccepts s T = some (r, rt)) :
    s.last_response = some r ∧ s.last_response_time = some rt ∧
    r ≠ [] ∧ rt ≠ 0 ∧ T ≤ rt := by
  unfold pollAccepts at h
  split at h
  · rename_i r2 rt2 heq1 heq2
    split at h
    · rename_i hcond
      rw [Option.some.injEq, Prod.mk.injEq] at h
      obtain ⟨rfl, rfl⟩ := h
      exact ⟨heq1, heq2, hcond.1, hcond.2.1, hcond.2.2⟩
    · exact absurd h (by simp)
  · exact absurd h (by simp)

/-- Every reply the poll test accepts was buffered by one of the handler
events, at a moment when the searcher was still waiting. -/
theorem runHandlers_accept (evs : List (List Char × Nat)) :
    ∀ (s : SearcherState) (r : List Char) (rt T : Nat),
      pollAccepts (runHandlers s evs) T = some (r, rt) →
      pollAccepts s T = some (r, rt) ∨
        ∃ i : Nat, ∃ hi : i < evs.length,
          (evs.get ⟨i, hi⟩) = (r, rt) ∧
          (runHandlers s (evs.take i)).waiting_for_response = true := by
  induction evs with
  | nil => intro s r rt T h; exact Or.inl h
  | cons e evs ih =>
    intro s r rt T h
    have hstep := ih (handlerStep s e.1 e.2) r rt T h
    rcases hstep with h1 | ⟨i, hi, h2, h3⟩
    · by_cases hb1 : e.1 = [] ∨ e.1.length > 4096
      · rw [handlerStep_invalid s hb1] at h1
        exact Or.inl h1
      · by_cases hb2 : ¬ s.waiting_for_response ∨ s.current_search_id = none
        · rw [handlerStep_ignored s hb2] at h1
          exact Or.inl h1
        · rw [handlerStep_buffer s hb1 hb2] at h1
          obtain ⟨hr, hrt, -⟩ := pollAccepts_spec h1
          rw [Option.some.injEq] at hr hrt
          refine Or.inr ⟨0, by simp, ?_, ?_⟩
          · show e = (r, rt)
            rw [Prod.ext_iff]
            exact ⟨hr, hrt⟩
          · show s.waiting_for_response = true
            rw [not_or, not_not] at hb2
            exact hb2.1
    · refine Or.inr ⟨i + 1, by simpa using hi, ?_, ?_⟩
      · show evs.get ⟨i, hi⟩ = (r, rt)
        exact h2
      · show (runHandlers (handlerStep s e.1 e.2) (evs.take i)).waiting_for_response = true
        exact h3

/-- C5: whenever the polling loop of search_image accepts a buffered reply,
the reply's arrival timestamp is at least the current request's submission
timestamp T, and the reply was buffered by a handler event delivered while
the request was still outstanding (waiting flag set, the current request's
search id installed).  A reply arriving before the submission time — one
belonging to a previous, abandoned request — is never accepted. -/
theorem C5_accepted_reply_fresh_and_outstanding (sid : Nat)
    (evs : List (List Char × Nat)) (T : Nat) (r : List Char) (rt : Nat)
    (h : pollAccepts (runHandlers (postSend sid) evs) T = some (r, rt)) :
    T ≤ rt ∧
    ∃ i : Nat, ∃ hi : i < evs.length,
      evs.get ⟨i, hi⟩ = (r, rt) ∧
      (runHandlers (postSend sid) (evs.take i)).waiting_for_response = true ∧
      (runHandlers (postSend sid) (evs.take i)).current_search_id = some sid := by
  have hT := (pollAccepts_spec h).2.2.2.2
  rcases runHandlers_accept evs (postSend sid) r rt T h with h1 | ⟨i, hi, h2, h3⟩
  · exact absurd (pollAccepts_spec h1).1 (by simp [postSend])
  · exact ⟨hT, i, hi, h2, h3, runHandlers_sid _ _⟩

/-- Witness for C5: one reply arriving at time 7 after submission at time 5. -/
theorem C5_accepted_reply_fresh_and_outstanding_witness :
    7 ≥ 5 ∧
    ∃ i : Nat, ∃ hi : i < ([("x".data, 7)] : List (List Char × Nat)).length,
      ([("x".data, 7)] : List (List Char × Nat)).get ⟨i, hi⟩ = ("x".data, 7) ∧
      (runHandlers (postSend 1)
        (([("x".data, 7)] : List (List Char × Nat)).take i)).waiting_for_response
        = true ∧
      (runHandlers (postSend 1)
        (([("x".data, 7)] : List (List Char × Nat)).take i)).current_search_id
        = some 1 :=
  C5_accepted_reply_fresh_and_outstanding 1 [("x".data, 7)] 5 "x".data 7
    (by decide)

/-! ## MessageTransport correlation (src/telegram_client.py) -/

structure ClientState where
  waiting_for_response : Bool
  last_sent_message_id : Option Nat
  deriving DecidableEq, Repr

/-- An inbound event from the lookup account: whether it carries a proper
Message, the text, the reply-target id and the arrival time. -/
structure InMsg where
  isMessage : Bool
  text : List Char
  reply_to_msg_id : Option Nat
  arrival : Nat

/-- telegram_client.py handle_bot_response (lines 52-76): ignore when not
waiting; ignore non-Message events; ignore events whose reply-target differs
from the last forwarded message id; otherwise hand the text to the searcher
callback and clear the transport correlation fields. -/
def clientHandle (cs : ClientState) (ss : SearcherState) (m : InMsg) :
    ClientState × SearcherState :=
  if cs.waiting_for_response = false then (cs, ss)
  else if m.isMessage = false then (cs, ss)
  else if m.reply_to_msg_id ≠ cs.last_sent_message_id then (cs, ss)
  else
    ({ waiting_for_response := false, last_sent_message_id := none },
     handlerStep ss m.text m.arrival)

/-- C6: the transport callback can change the shared searcher state only for
an inbound message arriving while a request is outstanding and whose
reply-target id equals the last forwarded message id; any other inbound
message (wrong correlation id, or no request outstanding, or not a Message)
is discarded with the transport state and the searcher state unchanged. -/
theorem C6_transport_frame (cs : ClientState) (ss : SearcherState) (m : InMsg) :
    (¬ (cs.waiting_for_response = true ∧
          m.reply_to_msg_id = cs.last_sent_message_id) →
        clientHandle cs ss m = (cs, ss)) ∧
    ((clientHandle cs ss m).2 ≠ ss →
        cs.waiting_for_response = true ∧
        m.reply_to_msg_id = cs.last_sent_message_id) ∧
    (m.isMessage = false → clientHandle cs ss m = (cs, ss)) := by
  by_cases h1 : cs.waiting_for_response = false
  · have hr : clientHandle cs ss m = (cs, ss) := by
      unfold clientHandle
      rw [if_pos h1]
    refine ⟨fun _ => hr, fun hne => absurd (congrArg Prod.snd hr) hne, fun _ => hr⟩
  · have h1t : cs.waiting_for_response = true := by
      cases hw : cs.waiting_for_response
      · exact absurd hw h1
      · rfl
    by_cases h2 : m.isMessage = false
    · have hr : clientHandle cs ss m = (cs, ss) := by
        unfold clientHandle
        rw [if_neg h1, if_pos h2]
      refine ⟨fun _ => hr, fun hne => absurd (congrArg Prod.snd hr) hne, fun _ => hr⟩
    · by_cases h3 : m.reply_to_msg_id ≠ cs.last_sent_message_id
      · have hr : clientHandle cs ss m = (cs, ss) := by
          unfold clientHandle
          rw [if_neg h1, if_neg h2, if_pos h3]
        refine ⟨fun _ => hr, fun hne => absurd (congrArg Prod.snd hr) hne,
          fun hm => absurd hm h2⟩
      · have h3e : m.reply_to_msg_id = cs.last_sent_message_id := not_not.mp h3
        refine ⟨fun hc => absurd ⟨h1t, h3e⟩ hc, fun _ => ⟨h1t, h3e⟩,
          fun hm => absurd hm h2⟩

/-- Witness for C6: with no request outstanding, an inbound message changes
nothing. -/
theorem C6_transport_frame_witness :
    clientHandle ⟨false, none⟩ idleState ⟨true, "x".data, some 3, 1⟩ =
      (⟨false, none⟩, idleState) :=
  (C6_transport_frame ⟨false, none⟩ idleState ⟨true, "x".data, some 3, 1⟩).1
    (by simp)

/-! ## The waiting loop of search_image (C9, C10) -/

/-- One poll of the waiting loop (lines 78-93): when the buffered reply is
fresh, run the extractor over it; only a reply with a qualifying URL makes
the loop return. -/
def searchPoll (s : SearcherState) (T : Nat) : Option (List Char) :=
  match pollAccepts s T with
  | some (r, _) => extract_source_url r
  | none => none

def SOURCE_WAIT_TIMEOUT : Nat := 8

/-- The waiting loop (lines 75-98): up to `k` polls one time unit apart; the
handler events of `sched` are delivered between polls.  On a qualifying
reply the state is reset and the URL returned; exhausting the window resets
the state and returns none. -/
def searchLoop : Nat → SearcherState → List (List (List Char × Nat)) → Nat →
    Option (List Char) × SearcherState
  | 0, s, _, _ => (none, resetState s)
  | k + 1, s, sched, T =>
    match searchPoll s T with
    | some url => (some url, resetState s)
    | none => searchLoop k (runHandlers s (sched.headD [])) sched.tail T

/-- The environment of one search_image call: whether the forward raises,
the handler events delivered during the wait, the submission timestamp, and
the fresh search id. -/
structure SearchEnv where
  sendFails : Bool
  sched : List (List (List Char × Nat))
  T : Nat
  sid : Nat

/-- search_image (lines 47-103): reset the four fields and install the new
search id, rate-limit (abstracted), set the waiting flag, forward the image
— any exception is caught, the state reset and none returned — then poll for
up to SOURCE_WAIT_TIMEOUT time units. -/
def search_image (_s : SearcherState) (env : SearchEnv) :
    Option (List Char) × SearcherState :=
  let s1 : SearcherState :=
    { last_response := none, last_response_time := none,
      waiting_for_response := false, current_search_id := some env.sid }
  if env.sendFails then (none, resetState s1)
  else
    searchLoop SOURCE_WAIT_TIMEOUT
      { s1 with waiting_for_response := true } env.sched env.T

theorem searchLoop_state (k : Nat) :
    ∀ (s : SearcherState) (sched : List (List (List Char × Nat))) (T : Nat),
      (searchLoop k s sched T).2 = idleState := by
  induction k with
  | zero => intro s sched T; rfl
  | succ k ih =>
    intro s sched T
    show (match searchPoll s T with
      | some url => (some url, resetState s)
      | none =>
        searchLoop k (runHandlers s (sched.headD [])) sched.tail T).2 = idleState
    cases searchPoll s T with
    | some url => rfl
    | none => exact ih _ _ _

theorem runHandlers_not_waiting {s : SearcherState}
    (h : s.waiting_for_response = false) (evs : List (List Char × Nat)) :
    runHandlers s evs = s := by
  induction evs with
  | nil => rfl
  | cons e evs ih =>
    show runHandlers (handlerStep s e.1 e.2) evs = s
    rw [handlerStep_ignored s (Or.inl (by rw [h]; exact Bool.false_ne_true))]
    exact ih

/-- C9: (a) once an accepted reply's text yields no qualifying URL, the run
returns none with the correlation state cleared — the loop keeps rechecking
the same buffered reply (the waiting flag is already off, so nothing can
overwrite it) until the window closes; (b) every run of the loop that
returns none — in particular every run that exhausts the window without
acceptance — ends with the correlation state cleared. -/
theorem C9_no_url_and_timeout_clear :
    (∀ (k : Nat) (s : SearcherState) (sched : List (List (List Char × Nat)))
        (T : Nat) (r : List Char) (rt : Nat),
        s.last_response = some r → s.last_response_time = some rt →
        s.waiting_for_response = false →
        extract_source_url r = none →
        searchLoop k s sched T = (none, idleState)) ∧
    (∀ (k : Nat) (s : SearcherState) (sched : List (List (List Char × Nat)))
        (T : Nat),
        (searchLoop k s sched T).1 = none →
        (searchLoop k s sched T).2 = idleState) := by
  constructor
  · intro k
    induction k with
    | zero => intro s sched T r rt _ _ _ _; rfl
    | succ k ih =>
      intro s sched T r rt hr hrt hw hx
      have hpoll : searchPoll s T = none := by
        unfold searchPoll
        cases hpa : pollAccepts s T with
        | none => rfl
        | some p =>
          obtain ⟨p1, p2⟩ := p
          have h2 := (pollAccepts_spec hpa).1
          rw [hr, Option.some.injEq] at h2
          show extract_source_url p1 = none
          rw [← h2]
          exact hx
      show (match searchPoll s T with
        | some url => (some url, resetState s)
        | none =>
          searchLoop k (runHandlers s (sched.headD [])) sched.tail T) =
          (none, idleState)
      rw [hpoll, runHandlers_not_waiting hw]
      exact ih s sched.tail T r rt hr hrt hw hx
  · intro k s sched T _
    exact searchLoop_state k s sched T

/-- C10: search_image never lets an exception escape — a failing forward
yields none — and on every exit path (resolution, timeout, exception) all
four correlation fields are left at their idle values. -/
theorem C10_search_image_clean_exit (s : SearcherState) (env : SearchEnv) :
    (search_image s env).2 = idleState ∧
    (env.sendFails = true → search_image s env = (none, idleState)) := by
  constructor
  · unfold search_image
    by_cases h : env.sendFails = true
    · rw [if_pos h]
      rfl
    · rw [if_neg h]
      exact searchLoop_state _ _ _ _
  · intro h
    unfold search_image
    rw [if_pos h]
    rfl

/-! ## PostIntakeFilter and the ledger pipeline (src/bot.py,
handle_channel_post).  Channel ids are naturals (the code compares their
string forms, which is the same membership test); a post identity is the
(channel id, message id) pair behind the "channel:message" key string. -/

structure PostEvent where
  is_edited : Bool
  channel_id : Nat
  message_id : Nat
  timestamp : Option Nat
  has_photo : Bool
  deriving DecidableEq, Repr

structure BotState where
  is_paused : Bool
  stopped_channels : List Nat
  start_time : Nat
  monitored : List Nat
  edited_posts : List (Nat × Nat)
  deriving DecidableEq, Repr

inductive IntakeDecision
  | rejectedPaused | rejectedStopped | rejectedOld | rejectedUnmonitored
  | rejectedNoPhoto | rejectedAlreadyEdited | rejectedHumanEdit | admitted
  deriving DecidableEq, Repr

def postId (e : PostEvent) : Nat × Nat := (e.channel_id, e.message_id)

/-- The old-message test of line 318, with Python truthiness: a zero start
time or a missing message date skips the test. -/
def isOldMessage (start : Nat) (ts : Option Nat) : Bool :=
  start != 0 &&
    (match ts with
     | some t => decide (t < start)
     | none => false)

/-- The intake checks of handle_channel_post (lines 276-352), in source
order, with the ledger claim made on a human edit.  The only state change is
the human-edit claim; every other outcome returns the state unchanged. -/
def intakeFilter (st : BotState) (e : PostEvent) : IntakeDecision × BotState :=
  if st.is_paused then (.rejectedPaused, st)
  else if e.channel_id ∈ st.stopped_channels then (.rejectedStopped, st)
  else if isOldMessage st.start_time e.timestamp then (.rejectedOld, st)
  else if e.channel_id ∉ st.monitored then (.rejectedUnmonitored, st)
  else if ¬ e.has_photo then (.rejectedNoPhoto, st)
  else if postId e ∈ st.edited_posts then (.rejectedAlreadyEdited, st)
  else if e.is_edited then
    (.rejectedHumanEdit,
     { st with edited_posts := postId e :: st.edited_posts })
  else (.admitted, st)

/-- C7: the intake filter rejects on the first matching rule in exactly the
order pause, stopped channel, old message, unmonitored channel, no photo,
already edited; an edit of a post not yet in the ledger is claimed into the
ledger and rejected; and the ledger claim on that path is the only state
change the filter ever makes. -/
theorem C7_intake_first_match_order (st : BotState) (e : PostEvent) :
    ((intakeFilter st e).1 = .rejectedPaused ↔ st.is_paused = true) ∧
    ((intakeFilter st e).1 = .rejectedStopped ↔
      st.is_paused = false ∧ e.channel_id ∈ st.stopped_channels) ∧
    ((intakeFilter st e).1 = .rejectedOld ↔
      st.is_paused = false ∧ e.channel_id ∉ st.stopped_channels ∧
      isOldMessage st.start_time e.timestamp = true) ∧
    ((intakeFilter st e).1 = .rejectedUnmonitored ↔
      st.is_paused = false ∧ e.channel_id ∉ st.stopped_channels ∧
      isOldMessage st.start_time e.timestamp = false ∧
      e.channel_id ∉ st.monitored) ∧
    ((intakeFilter st e).1 = .rejectedNoPhoto ↔
      st.is_paused = false ∧ e.channel_id ∉ st.stopped_channels ∧
      isOldMessage st.start_time e.timestamp = false ∧
      e.channel_id ∈ st.monitored ∧ e.has_photo = false) ∧
    ((intakeFilter st e).1 = .rejectedAlreadyEdited ↔
      st.is_paused = false ∧ e.channel_id ∉ st.stopped_channels ∧
      isOldMessage st.start_time e.timestamp = false ∧
      e.channel_id ∈ st.monitored ∧ e.has_photo = true ∧
      postId e ∈ st.edited_posts) ∧
    ((intakeFilter st e).1 = .rejectedHumanEdit ↔
      st.is_paused = false ∧ e.channel_id ∉ st.stopped_channels ∧
      isOldMessage st.start_time e.timestamp = false ∧
      e.channel_id ∈ st.monitored ∧ e.has_photo = true ∧
      postId e ∉ st.edited_posts ∧ e.is_edited = true) ∧
    ((intakeFilter st e).1 = .admitted ↔
      st.is_paused = false ∧ e.channel_id ∉ st.stopped_channels ∧
      isOldMessage st.start_time e.timestamp = false ∧
      e.channel_id ∈ st.monitored ∧ e.has_photo = true ∧
      postId e ∉ st.edited_posts ∧ e.is_edited = false) ∧
    ((intakeFilter st e).1 = .rejectedHumanEdit →
      (intakeFilter st e).2 =
        { st with edited_posts := postId e :: st.edited_posts }) ∧
    ((intakeFilter st e).1 ≠ .rejectedHumanEdit →
      (intakeFilter st e).2 = st) := by
  unfold intakeFilter
  by_cases h1 : st.is_paused = true
  · rw [if_pos h1]
    simp [h1]
  · have h1f : st.is_paused = false := bool_eq_false_of_not h1
    rw [if_neg h1]
    by_cases h2 : e.channel_id ∈ st.stopped_channels
    · rw [if_pos h2]
      simp [h1f, h2]
    · rw [if_neg h2]
      by_cases h3 : isOldMessage st.start_time e.timestamp = true
      · rw [if_pos h3]
        simp [h1f, h2, h3]
      · have h3f : isOldMessage st.start_time e.timestamp = false :=
          bool_eq_false_of_not h3
        rw [if_neg h3]
        by_cases h4 : e.channel_id ∉ st.monitored
        · rw [if_pos h4]
          simp [h1f, h2, h3f, h4]
        · have h4t : e.channel_id ∈ st.monitored := not_not.mp h4
          rw [if_neg h4]
          by_cases h5 : ¬ e.has_photo = true
          · have h5f : e.has_photo = false := bool_eq_false_of_not h5
            rw [if_pos (by rw [h5f]; exact Bool.false_ne_true)]
            simp [h1f, h2, h3f, h4t, h5f]
          · have h5t : e.has_photo = true := not_not.mp h5
            rw [if_neg (by rw [h5t]; simp)]
            by_cases h6 : postId e ∈ st.edited_posts
            · rw [if_pos h6]
              simp [h1f, h2, h3f, h4t, h5t, h6]
            · rw [if_neg h6]
              by_cases h7 : e.is_edited = true
              · rw [if_pos h7]
                simp [h1f, h2, h3f, h4t, h5t, h6, h7]
              · have h7f : e.is_edited = false := bool_eq_false_of_not h7
                rw [if_neg h7]
                simp [h1f, h2, h3f, h4t, h5t, h6, h7f]

/-- The filter only touches the ledger on the human-edit path. -/
theorem intakeFilter_state_unchanged {st : BotState} {e : PostEvent}
    (h : (intakeFilter st e).1 ≠ .rejectedHumanEdit) :
    (intakeFilter st e).2 = st := by
  unfold intakeFilter at h ⊢
  split_ifs at h ⊢ <;> first | rfl | exact absurd rfl h

/-- A post identity already present in the ledger can never be admitted and
never reaches the human-edit claim. -/
theorem intakeFilter_mem_ledger {st : BotState} {e : PostEvent}
    (h : postId e ∈ st.edited_posts) :
    (intakeFilter st e).1 ≠ .admitted ∧
    (intakeFilter st e).1 ≠ .rejectedHumanEdit := by
  unfold intakeFilter
  split_ifs with h1 h2 h3 h4 h5 <;> simp_all

/-- An admitted event's post identity was not in the ledger. -/
theorem intakeFilter_admitted_not_mem {st : BotState} {e : PostEvent}
    (h : (intakeFilter st e).1 = .admitted) : postId e ∉ st.edited_posts := by
  intro hmem
  exact (intakeFilter_mem_ledger hmem).1 h

/-! ## The per-post pipeline after intake (C8) -/

inductive EditOutcome
  | applied | notModified | notEnoughRights | notFound | otherFailure
  deriving DecidableEq, Repr

/-- The external calls of one pipeline run: the permission check result
(false also covers an exception there), whether the image download
succeeded, the search result, and the caption-edit outcome. -/
structure PipelineEnv where
  canEdit : Bool
  imageOk : Bool
  source : Option (List Char)
  editOutcome : EditOutcome

/-- handle_channel_post (lines 276-446) as one pipeline run: intake, then
permission check, image download, search, caption edit.  Returns the new bot
state and the number of caption-edit calls made.  The ledger is marked after
an applied edit (line 426) and after a "message is not modified" outcome
(line 438); the other edit failures are logged without a ledger mark. -/
def runPipeline (st : BotState) (e : PostEvent) (env : PipelineEnv) :
    BotState × Nat :=
  match intakeFilter st e with
  | (.admitted, st1) =>
    if env.canEdit = false then (st1, 0)
    else if env.imageOk = false then (st1, 0)
    else
      match env.source with
      | none => (st1, 0)
      | some _ =>
        match env.editOutcome with
        | .applied => ({ st1 with edited_posts := postId e :: st1.edited_posts }, 1)
        | .notModified =>
          ({ st1 with edited_posts := postId e :: st1.edited_posts }, 1)
        | _ => (st1, 1)
  | (_, st1) => (st1, 0)

theorem runPipeline_not_admitted {st : BotState} {e : PostEvent}
    {env : PipelineEnv} (h : (intakeFilter st e).1 ≠ .admitted)
    (h2 : (intakeFilter st e).2 = st) : runPipeline st e env = (st, 0) := by
  unfold runPipeline
  cases hfe : intakeFilter st e with
  | mk d st1 =>
    rw [hfe] at h h2
    cases d <;> simp_all

/-- C8: after an admitted event whose edit applies or comes back "message is
not modified", the post identity is in the ledger, exactly one caption-edit
call was made, and every later event carrying the same post identity is
rejected by the intake filter, triggers zero caption-edit calls, and leaves
the state unchanged — no post identity is ever rewritten twice. -/
theorem C8_ledger_marks_and_excludes (st : BotState) (e : PostEvent)
    (env : PipelineEnv) (hadm : (intakeFilter st e).1 = .admitted)
    (hperm : env.canEdit = true) (himg : env.imageOk = true)
    (hsrc : env.source ≠ none)
    (hout : env.editOutcome = .applied ∨ env.editOutcome = .notModified) :
    postId e ∈ (runPipeline st e env).1.edited_posts ∧
    (runPipeline st e env).2 = 1 ∧
    ∀ (e2 : PostEvent) (env2 : PipelineEnv), postId e2 = postId e →
      (intakeFilter (runPipeline st e env).1 e2).1 ≠ .admitted ∧
      runPipeline (runPipeline st e env).1 e2 env2 =
        ((runPipeline st e env).1, 0) := by
  have hst1 : (intakeFilter st e).2 = st :=
    intakeFilter_state_unchanged (by rw [hadm]; simp)
  obtain ⟨src, hsome⟩ := Option.ne_none_iff_exists.mp hsrc
  have hrun : runPipeline st e env =
      ({ st with edited_posts := postId e :: st.edited_posts }, 1) := by
    unfold runPipeline
    cases hfe : intakeFilter st e with
    | mk d st1 =>
      rw [hfe] at hadm hst1
      subst hst1
      cases d <;> simp_all
      rcases hout with h | h <;> rw [h, ← hsome]
  rw [hrun]
  refine ⟨List.mem_cons_self _ _, rfl, ?_⟩
  intro e2 env2 hpid
  have hmem : postId e2 ∈
      ({ st with edited_posts := postId e :: st.edited_posts } :
        BotState).edited_posts := by
    rw [hpid]
    exact List.mem_cons_self _ _
  have hml := intakeFilter_mem_ledger hmem
  exact ⟨hml.1, runPipeline_not_admitted hml.1
    (intakeFilter_state_unchanged hml.2)⟩

/-- Witness for C8 at a concrete state, event and environment. -/
theorem C8_ledger_marks_and_excludes_witness :
    postId ⟨false, 5, 9, some 10, true⟩ ∈
      (runPipeline ⟨false, [], 1, [5], []⟩ ⟨false, 5, 9, some 10, true⟩
        ⟨true, true, some "u".data, .applied⟩).1.edited_posts ∧
    (runPipeline ⟨false, [], 1, [5], []⟩ ⟨false, 5, 9, some 10, true⟩
      ⟨true, true, some "u".data, .applied⟩).2 = 1 ∧
    ∀ (e2 : PostEvent) (env2 : PipelineEnv),
      postId e2 = postId ⟨false, 5, 9, some 10, true⟩ →
      (intakeFilter
        (runPipeline ⟨false, [], 1, [5], []⟩ ⟨false, 5, 9, some 10, true⟩
          ⟨true, true, some "u".data, .applied⟩).1 e2).1 ≠ .admitted ∧
      runPipeline
        (runPipeline ⟨false, [], 1, [5], []⟩ ⟨false, 5, 9, some 10, true⟩
          ⟨true, true, some "u".data, .applied⟩).1 e2 env2 =
        ((runPipeline ⟨false, [], 1, [5], []⟩ ⟨false, 5, 9, some 10, true⟩
          ⟨true, true, some "u".data, .applied⟩).1, 0) :=
  C8_ledger_marks_and_excludes ⟨false, [], 1, [5], []⟩
    ⟨false, 5, 9, some 10, true⟩ ⟨true, true, some "u".data, .applied⟩
    (by decide) rfl rfl (by simp) (Or.inl rfl)

end PicSourcer
